import Mathlib

/-!
Shallow embedding of the sweep-based imaginary-time evolution engine in
`pyblock/algorithm/time_evolution.py` (class `ExpoApply`), together with
theorems about its behaviour: canonical-form bookkeeping, sweep ranges,
per-sweep aggregation of local results, the compensating back-propagation
exponential step, the multi-sweep driver, and the error paths.

Tensor-valued data handled by the external contraction backend
(`contractor`) is opaque to the engine's control flow; it is modelled by an
oracle supplying the scalar outputs of each backend call (energy, norm
squared, discarded weight, operator-application counts) and by event traces
recording which backend operations the engine performs, in order.  The
post-sweep renormalisation, whose correctness is a statement about real
arithmetic, is modelled over `ℝ`.
-/

namespace PyBlock

/-- Python-level failure outcomes reachable in `time_evolution.py`. -/
inductive PyErr where
  | nameError (missing : String)
  | attributeError (attr : String)
  | indexError
  | valueError
  | assertionError
  deriving DecidableEq, Repr

/-- Evaluating `raise TimeEvolutionError(msg)` in `time_evolution.py`: the
module defines the exception class `TEError` (line 33), but every raise
site names `TimeEvolutionError`, which no definition or import in the
module binds; evaluating the raise expression therefore fails with a
`NameError` naming `TimeEvolutionError`, and the message is never attached
to any exception object. -/
def raiseTimeEvolutionError (_msg : String) : PyErr :=
  PyErr.nameError ("TimeEvolutionError")

/-- Python `lst[-1]`: the last element, or `IndexError` on an empty list. -/
def pyLast {α : Type} (l : List α) : Except PyErr α :=
  match l.getLast? with
  | none => Except.error PyErr.indexError
  | some x => Except.ok x

/-- Python `max(lst)` on a list of rationals: `ValueError` on an empty
list, otherwise the left fold of binary `max` over the list. -/
def pyMax (l : List ℚ) : Except PyErr ℚ :=
  match l with
  | [] => Except.error PyErr.valueError
  | x :: xs => Except.ok (xs.foldl max x)

/-- Python `lst[i]` for a non-negative index: `IndexError` when out of
range. -/
def pyGet {α : Type} (l : List α) (i : ℕ) : Except PyErr α :=
  match l[i]? with
  | none => Except.error PyErr.indexError
  | some x => Except.ok x

/-- Number of elements of the CPython `range(start, stop, step)` object
(for `step ≠ 0`): `max 0 ⌈(stop - start) / step⌉` elements. -/
def pyRangeLen (start stop step : ℤ) : ℕ :=
  if 0 < step then (((stop - start) + step - 1) / step).toNat
  else if step < 0 then (((start - stop) + (-step) - 1) / (-step)).toNat
  else 0

/-- The CPython `range(start, stop, step)` object as a list: the `j`-th
element is `start + step * j`. -/
def pyRange (start stop step : ℤ) : List ℤ :=
  (List.range (pyRangeLen start stop step)).map (fun j : ℕ => start + step * (j : ℤ))

/-- The default canonical form built by `ExpoApply.__init__` (lines 74-77):
`['L'] * min(center, n_sites) + ['C'] * dot + ['R'] * max(n_sites - center - dot, 0)`
(truncated subtraction on `ℕ` realises the `max(·, 0)`). -/
def initCanonicalForm (n_sites center dot : ℕ) : List Char :=
  List.replicate (min center n_sites) 'L' ++ List.replicate dot 'C' ++
    List.replicate (n_sites - center - dot) 'R'

/-- Canonical-form update of `ExpoApply.update_one_dot` (lines 189-221):
forward with a right neighbour writes `form[i:i+2] = "LC"`; forward at the
last site writes `form[i] = 'K'`; backward with a left neighbour writes
`form[i-1:i+1] = "CR"`; backward at site 0 writes `form[i] = 'S'`. -/
def oneDotFormUpdate (n_sites i : ℕ) (forward : Bool) (form : List Char) : List Char :=
  if forward then
    if i + 1 < n_sites then (form.set i 'L').set (i + 1) 'C'
    else form.set i 'K'
  else
    if 1 ≤ i then (form.set (i - 1) 'C').set i 'R'
    else form.set i 'S'

/-- Canonical-form update of `ExpoApply.update_two_dot` (lines 285-286):
`form[i] = 'L' if forward else 'C'` and `form[i+1] = 'C' if forward else 'R'`. -/
def twoDotFormUpdate (i : ℕ) (forward : Bool) (form : List Char) : List Char :=
  (form.set i (if forward then 'L' else 'C')).set (i + 1) (if forward then 'C' else 'R')

/-- The orthogonality-centre lookup of `ExpoApply.solve` (lines 461-466):
the first index holding `'C'` if any `'C'` is present, else the first
`'K'`, else the first `'S'`, else `none`. -/
def ccOf (form : List Char) : Option ℕ :=
  if form.count 'C' ≠ 0 then some (List.indexOf 'C' form)
  else if form.count 'K' ≠ 0 then some (List.indexOf 'K' form)
  else if form.count 'S' ≠ 0 then some (List.indexOf 'S' form)
  else none

/-- The post-sweep centre check of `ExpoApply.solve` (lines 461-468): when
no `'C'`/`'K'`/`'S'` marker exists the code reaches
`raise TimeEvolutionError('Unknown canonical form!!')`, which fails with a
`NameError` (see `raiseTimeEvolutionError`); otherwise the first matching
index is returned. -/
def postSweepCc (form : List Char) : Except PyErr ℕ :=
  match ccOf form with
  | none => Except.error (raiseTimeEvolutionError ("Unknown canonical form!!"))
  | some cc => Except.ok cc

/-- `'C'`, `'K'` and `'S'` are the orthogonality-centre markers; `'K'` and
`'S'` are the boundary variants ("L form times a scalar" and "R form times
a scalar", per the source comments at lines 204 and 220). -/
def isCenterMark (ch : Char) : Bool :=
  ch = 'C' || ch = 'K' || ch = 'S'

/-- A canonical form consisting of a block of `'L'`s, a middle run `mid`,
and a block of `'R'`s. -/
def runForm (a : ℕ) (mid : List Char) (b : ℕ) : List Char :=
  List.replicate a 'L' ++ mid ++ List.replicate b 'R'

/-- Sweep iteration range of `ExpoApply.sweep` (lines 391-394), before
conversion to site numbers: `range(center, n_sites - dot + 1)` for a
forward sweep and `range(center, -1, -1)` for a backward sweep. -/
def sweepSitesZ (forward : Bool) (center n_sites dot : ℕ) : List ℤ :=
  if forward then pyRange (center : ℤ) ((n_sites : ℤ) - (dot : ℤ) + 1) 1
  else pyRange (center : ℤ) (-1) (-1)

/-- Sweep iteration range as natural site indices (every visited index is
non-negative, so `Int.toNat` is faithful). -/
def sweepSites (forward : Bool) (center n_sites dot : ℕ) : List ℕ :=
  (sweepSitesZ forward center n_sites dot).map Int.toNat

/-- Backend operations performed by a local update, in program order.
`expo envPos block beta` is a call `contractor.expo_apply(h_eff, v, beta)`
where the moving environment sits at `envPos` and the evolved vector is
written back to the site(s) in `block`; `truncate block k` is the
density-matrix split `split_using_density_matrix(dm, ..., k=k, ...)` of
the wavefunction covering `block`. -/
inductive Event where
  | expo (envPos : ℕ) (block : List ℕ) (beta : ℚ)
  | truncate (block : List ℕ) (bond_dim : ℕ)
  deriving DecidableEq, Repr

/-- Oracle for the scalar outputs of the opaque contraction backend: the
`s`-th `expo_apply` call of a run returns energy `energy s`, norm squared
`normsq s` and operator-application count `nexpo s`; the `s`-th
density-matrix split returns discarded weight `err s`.  Quantifying over
all oracles covers every numeric behaviour the backend can exhibit. -/
structure Oracle where
  energy : ℕ → ℚ
  normsq : ℕ → ℚ
  nexpo : ℕ → ℕ
  err : ℕ → ℚ

/-- Result of one local update: the scalars returned to `sweep`
(lines 222 and 322 return `energy, normsq, error, (nexpo, nexpok)`), the
updated canonical form, the backend events performed, and the advanced
oracle counters (`c` for `expo_apply` calls, `d` for splits). -/
structure UpdOut where
  energy : ℚ
  normsq : ℚ
  error : ℚ
  nexpo : ℕ
  nexpok : ℕ
  form : List Char
  events : List Event
  c : ℕ
  d : ℕ
  deriving DecidableEq, Repr

/-- Shallow embedding of `ExpoApply.update_one_dot` (lines 107-222).
`hasCtr` is whether the Hamiltonian site tensor has a configured
contractor (line 132); when it is missing, line 135 attempts
`raise TimeEvolutionError(...)` before any state is touched, which fails
with a `NameError` (see `raiseTimeEvolutionError`).  Otherwise the update
applies `expo_apply(h_eff, ket, beta)` at site `i` (line 152), splits the
result with bond dimension `bond_dim` (lines 163-166), rewrites the
canonical form, and — except at the physical boundary site — moves the
environment to the newly exposed neighbour and applies the compensating
`expo_apply(k_eff, ·, -beta)` there (lines 188-221).  Fusing, unfusing and
tensor write-backs are pure backend tensor bookkeeping with no effect on
the control flow modelled here. -/
def update_one_dot (o : Oracle) (hasCtr : Bool) (n_sites : ℕ) (form : List Char)
    (c d : ℕ) (i : ℕ) (forward : Bool) (bond_dim : ℕ) (beta : ℚ) :
    Except PyErr UpdOut :=
  if hasCtr = false then
    Except.error (raiseTimeEvolutionError ("Need a contractor for updating local site!"))
  else
    let energy := o.energy c
    let normsq := o.normsq c
    let nexpo := o.nexpo c
    let error := o.err d
    let ev0 : List Event := [Event.expo i [i] beta, Event.truncate [i] bond_dim]
    let form' := oneDotFormUpdate n_sites i forward form
    if forward then
      if i + 1 < n_sites then
        Except.ok { energy, normsq, error, nexpo, nexpok := o.nexpo (c + 1), form := form',
                    events := ev0 ++ [Event.expo (i + 1) [i + 1] (-beta)], c := c + 2, d := d + 1 }
      else
        Except.ok { energy, normsq, error, nexpo, nexpok := 0, form := form',
                    events := ev0, c := c + 1, d := d + 1 }
    else
      if 1 ≤ i then
        Except.ok { energy, normsq, error, nexpo, nexpok := o.nexpo (c + 1), form := form',
                    events := ev0 ++ [Event.expo (i - 1) [i - 1] (-beta)], c := c + 2, d := d + 1 }
      else
        Except.ok { energy, normsq, error, nexpo, nexpok := 0, form := form',
                    events := ev0, c := c + 1, d := d + 1 }

/-- Shallow embedding of `ExpoApply.update_two_dot` (lines 224-322).  Same
conventions as `update_one_dot`: missing-contractor check (lines 249-252),
`expo_apply` on the fused two-site wavefunction `{i, i+1}` (line 268),
density-matrix split (lines 272-275), canonical-form rewrite
(lines 285-286), then — unless the block already touches the sweep's
terminal physical site (`i + 1 == n_sites - 1` forward, `i == 0`
backward) — the compensating `expo_apply(k_eff, ·, -beta)` with the
environment moved to `i+1` (forward, result written to site `i+1`) or
`i-1` (backward, result written to site `i`) (lines 296-321). -/
def update_two_dot (o : Oracle) (hasCtr : Bool) (n_sites : ℕ) (form : List Char)
    (c d : ℕ) (i : ℕ) (forward : Bool) (bond_dim : ℕ) (beta : ℚ) :
    Except PyErr UpdOut :=
  if hasCtr = false then
    Except.error (raiseTimeEvolutionError ("Need a contractor for updating local site!"))
  else
    let energy := o.energy c
    let normsq := o.normsq c
    let nexpo := o.nexpo c
    let error := o.err d
    let ev0 : List Event := [Event.expo i [i, i + 1] beta, Event.truncate [i, i + 1] bond_dim]
    let form' := twoDotFormUpdate i forward form
    if forward then
      if i + 1 ≠ n_sites - 1 then
        Except.ok { energy, normsq, error, nexpo, nexpok := o.nexpo (c + 1), form := form',
                    events := ev0 ++ [Event.expo (i + 1) [i + 1] (-beta)], c := c + 2, d := d + 1 }
      else
        Except.ok { energy, normsq, error, nexpo, nexpok := 0, form := form',
                    events := ev0, c := c + 1, d := d + 1 }
    else
      if i ≠ 0 then
        Except.ok { energy, normsq, error, nexpo, nexpok := o.nexpo (c + 1), form := form',
                    events := ev0 ++ [Event.expo (i - 1) [i] (-beta)], c := c + 2, d := d + 1 }
      else
        Except.ok { energy, normsq, error, nexpo, nexpok := 0, form := form',
                    events := ev0, c := c + 1, d := d + 1 }

/-- `ExpoApply.blocking` (lines 330-360): move the environment to `i`, set
`self.center = i`, and dispatch on the dot scheme. -/
def blocking (o : Oracle) (hasCtr : Bool) (n_sites dot : ℕ) (form : List Char)
    (c d : ℕ) (i : ℕ) (forward : Bool) (bond_dim : ℕ) (beta : ℚ) :
    Except PyErr UpdOut :=
  if dot = 1 then update_one_dot o hasCtr n_sites form c d i forward bond_dim beta
  else update_two_dot o hasCtr n_sites form c d i forward bond_dim beta

/-- Mutable state threaded through one sweep: canonical form, centre, the
oracle counters, the per-step result lists `sweep_energies`,
`sweep_normsqs`, `sweep_errors` (lines 396-398, appended at lines 408-410)
and the accumulated backend event trace. -/
structure SweepSt where
  form : List Char
  center : ℕ
  c : ℕ
  d : ℕ
  energies : List ℚ
  normsqs : List ℚ
  errors : List ℚ
  events : List Event
  deriving DecidableEq, Repr

/-- The sweep loop body (lines 400-410) iterated over the remaining site
indices: each iteration runs `blocking` at site `i` and appends the
returned scalars to the per-step lists. -/
def sweepFold (o : Oracle) (hasCtr : Bool) (n_sites dot : ℕ) (forward : Bool)
    (bond_dim : ℕ) (beta : ℚ) : List ℕ → SweepSt → Except PyErr SweepSt
  | [], st => Except.ok st
  | i :: rest, st =>
    match blocking o hasCtr n_sites dot st.form st.c st.d i forward bond_dim beta with
    | Except.error e => Except.error e
    | Except.ok u =>
      sweepFold o hasCtr n_sites dot forward bond_dim beta rest
        { form := u.form, center := i, c := u.c, d := u.d,
          energies := st.energies ++ [u.energy], normsqs := st.normsqs ++ [u.normsq],
          errors := st.errors ++ [u.error], events := st.events ++ u.events }

/-- Result of `ExpoApply.sweep`: the returned triple (line 414) plus the
final loop state. -/
structure SweepOut where
  energy : ℚ
  normsq : ℚ
  error : ℚ
  st : SweepSt
  deriving DecidableEq, Repr

/-- Shallow embedding of `ExpoApply.sweep` (lines 362-414): iterate
`blocking` over `sweepSites`, then return
`sweep_energies[-1], sweep_normsqs[-1], max(sweep_errors)` (line 414,
evaluated left to right; on an empty range the `[-1]` lookup fails with
an `IndexError`). -/
def sweep (o : Oracle) (hasCtr : Bool) (n_sites dot : ℕ) (forward : Bool)
    (bond_dim : ℕ) (beta : ℚ) (form : List Char) (center c d : ℕ) :
    Except PyErr SweepOut :=
  match sweepFold o hasCtr n_sites dot forward bond_dim beta
      (sweepSites forward center n_sites dot)
      { form, center, c, d, energies := [], normsqs := [], errors := [], events := [] } with
  | Except.error e => Except.error e
  | Except.ok st =>
    match pyLast st.energies with
    | Except.error e => Except.error e
    | Except.ok energy =>
      match pyLast st.normsqs with
      | Except.error e => Except.error e
      | Except.ok normsq =>
        match pyMax st.errors with
        | Except.error e => Except.error e
        | Except.ok error => Except.ok { energy, normsq, error, st }

/-- Record of one executed sweep inside `solve`: which iteration it was,
the dot scheme and direction it ran with, the bond dimension drawn from
the (extended) schedule, the centre before and after the optional
two-dot-to-one-dot adjustment, and whether the switch fired this
iteration. -/
structure SweepRec where
  iw : ℕ
  forward : Bool
  dot : ℕ
  bond_dim : ℕ
  centerBefore : ℕ
  centerStart : ℕ
  switched : Bool
  deriving DecidableEq, Repr

/-- Mutable driver state of `ExpoApply.solve`: dot scheme, centre,
direction, canonical form, oracle counters, the result lists
`self.energies`, `self.normsqs`, `self.errors` (lines 451-453), and the
records of executed sweeps. -/
structure SolveSt where
  dot : ℕ
  center : ℕ
  forward : Bool
  form : List Char
  c : ℕ
  d : ℕ
  energies : List ℚ
  normsqs : List ℚ
  errors : List ℚ
  recs : List SweepRec
  deriving DecidableEq, Repr

/-- The two-dot-to-one-dot switch at the top of a `solve` iteration
(lines 444-448): when `two_dot_to_one_dot == iw`, `assert self.dot == 2`
(an `AssertionError` otherwise), then `self.dot = 1`, and the centre is
moved from `n_sites - 2` to `n_sites - 1` when it is a nonzero
`n_sites - 2`. -/
def switchState (n_sites : ℕ) (tdo : ℤ) (iw : ℕ) (st : SolveSt) : Except PyErr SolveSt :=
  if tdo = (iw : ℤ) then
    if st.dot ≠ 2 then Except.error PyErr.assertionError
    else
      let newCenter := if st.center ≠ 0 ∧ st.center = n_sites - 2 then n_sites - 1 else st.center
      Except.ok { st with dot := 1, center := newCenter }
  else Except.ok st

/-- One iteration of the `solve` loop (lines 438-474): optional dot-scheme
switch, one `sweep` with bond dimension `bond_dims[iw]` and step
`beta / 2`, appending the sweep results, flipping the direction
(line 455), and locating the orthogonality centre for the renormalisation
(lines 461-468; the renormalisation itself rescales opaque tensor data and
is modelled over `ℝ` by `postSweepStep`). -/
def solveIter (o : Oracle) (hasCtr : Bool) (n_sites : ℕ) (beta : ℚ) (tdo : ℤ)
    (bd : List ℕ) (iw : ℕ) (st₀ : SolveSt) : Except PyErr SolveSt :=
  match switchState n_sites tdo iw st₀ with
  | Except.error e => Except.error e
  | Except.ok st =>
    match pyGet bd iw with
    | Except.error e => Except.error e
    | Except.ok bdim =>
      match sweep o hasCtr n_sites st.dot st.forward bdim (beta / 2) st.form st.center st.c st.d with
      | Except.error e => Except.error e
      | Except.ok sw =>
        match postSweepCc sw.st.form with
        | Except.error e => Except.error e
        | Except.ok _cc =>
          Except.ok { dot := st.dot, center := sw.st.center, forward := !st.forward,
                      form := sw.st.form, c := sw.st.c, d := sw.st.d,
                      energies := st.energies ++ [sw.energy],
                      normsqs := st.normsqs ++ [sw.normsq],
                      errors := st.errors ++ [sw.error],
                      recs := st.recs ++ [{ iw, forward := st.forward, dot := st.dot,
                                            bond_dim := bdim, centerBefore := st₀.center,
                                            centerStart := st.center,
                                            switched := decide (tdo = (iw : ℤ)) }] }

/-- The `for iw in range(n_sweeps)` loop of `solve`, with Python exception
propagation. -/
def solveLoop (o : Oracle) (hasCtr : Bool) (n_sites : ℕ) (beta : ℚ) (tdo : ℤ)
    (bd : List ℕ) : List ℕ → SolveSt → Except PyErr SolveSt
  | [], st => Except.ok st
  | iw :: rest, st =>
    match solveIter o hasCtr n_sites beta tdo bd iw st with
    | Except.error e => Except.error e
    | Except.ok st' => solveLoop o hasCtr n_sites beta tdo bd rest st'

/-- Bond-dimension schedule extension at the top of `solve`
(lines 433-434): a schedule shorter than `n_sweeps` is extended by
repeating its last element (`self.bond_dims[-1]`, an `IndexError` when the
schedule is empty) until it has `n_sweeps` entries. -/
def extendSchedule (bond_dims : List ℕ) (n_sweeps : ℕ) : Except PyErr (List ℕ) :=
  if bond_dims.length < n_sweeps then
    match bond_dims.getLast? with
    | none => Except.error PyErr.indexError
    | some v => Except.ok (bond_dims ++ List.replicate (n_sweeps - bond_dims.length) v)
  else Except.ok bond_dims

/-- Result of `ExpoApply.solve`: the returned final energy and the final
driver state. -/
structure SolveOut where
  energy : ℚ
  st : SolveSt
  deriving DecidableEq, Repr

/-- Shallow embedding of `ExpoApply.solve` (lines 416-477): extend the
bond-dimension schedule, run exactly `n_sweeps` iterations of the sweep
loop, and return the `energy` of the last sweep (`return energy` at
line 477 reads the loop variable, which is unbound — a `NameError` — when
the loop body never ran). -/
def solve (o : Oracle) (hasCtr : Bool) (n_sites : ℕ) (dot center : ℕ)
    (bond_dims : List ℕ) (beta : ℚ) (form : List Char) (n_sweeps : ℕ)
    (forward : Bool) (tdo : ℤ) : Except PyErr SolveOut :=
  match extendSchedule bond_dims n_sweeps with
  | Except.error e => Except.error e
  | Except.ok bd =>
    match solveLoop o hasCtr n_sites beta tdo bd (List.range n_sweeps)
        { dot, center, forward, form, c := 0, d := 0,
          energies := [], normsqs := [], errors := [], recs := [] } with
    | Except.error e => Except.error e
    | Except.ok st =>
      match st.energies.getLast? with
      | none => Except.error (PyErr.nameError ("energy"))
      | some energy => Except.ok { energy, st }

/-- Squared norm of a site tensor, viewed as its flat list of real
entries: the self inner product computed by the backend. -/
def normSq (t : List ℝ) : ℝ :=
  (t.map (fun x => x ^ 2)).sum

/-- The four site-indexed tensor families touched by the post-sweep
renormalisation: `self._k` (`_KET` tensors), `self._b` (`_BRA` tensors),
and the ket/bra copies held inside `self.eff_ham()`. -/
structure NetState where
  ket : ℕ → List ℝ
  bra : ℕ → List ℝ
  envKet : ℕ → List ℝ
  envBra : ℕ → List ℝ

/-- Real-arithmetic model of the tail of a `solve` iteration
(lines 455-474): flip the sweep direction, locate the orthogonality
centre `cc` (first `'C'`, else first `'K'`, else first `'S'`; a
`NameError` from the unbound `TimeEvolutionError` when none exists), form
`normalized = ket[cc] * (1 / sqrt(normsq))`, and write that same tensor
into all four copies at `cc`. -/
noncomputable def postSweepStep (forward : Bool) (form : List Char) (normsq : ℝ)
    (nets : NetState) : Except PyErr (Bool × NetState × ℕ) :=
  let forward' := !forward
  match ccOf form with
  | none => Except.error (raiseTimeEvolutionError ("Unknown canonical form!!"))
  | some cc =>
    let normalized := (nets.ket cc).map (fun x => x * (1 / Real.sqrt normsq))
    Except.ok (forward',
      { ket := Function.update nets.ket cc normalized,
        bra := Function.update nets.bra cc normalized,
        envKet := Function.update nets.envKet cc normalized,
        envBra := Function.update nets.envBra cc normalized }, cc)

/-- A trivial concrete backend oracle, used to instantiate theorems at
concrete inputs. -/
def oracle0 : Oracle :=
  { energy := fun _ => 0, normsq := fun _ => 0, nexpo := fun _ => 0, err := fun _ => 0 }

/-- The attributes of the external contractor object that
`ExpoApply.__init__` reads directly: `rebuild` (line 90; `pre_sweep` and
`post_sweep` are read only behind a `contractor is not None` guard at
lines 85-86, and `set_contractor` accepts `None`). -/
structure Ctr where
  rebuild : Bool
  deriving DecidableEq, Repr

/-- The scalar attributes set on a successfully constructed `ExpoApply`
instance (lines 59-96); the copied tensor networks and environment are
opaque backend data. -/
structure ExpoApplySt where
  n_sites : ℕ
  dot : ℕ
  center : ℕ
  bond_dims : List ℕ
  canonical_form : List Char
  beta : ℚ
  rebuild : Bool
  deriving DecidableEq, Repr

/-- Shallow embedding of `ExpoApply.__init__` (lines 59-96) with the
`contractor` argument explicit (its declared default is `None`).  The
`bond_dims` normalisation (`bond_dims if isinstance(bond_dims, list) else
[bond_dims]`, line 63) is modelled by taking the list directly.  The body
copies networks, attaches tags, sets contractors (all of which accept a
`None` contractor), builds the default canonical form when none is given,
and guards the `pre_sweep`/`post_sweep` hooks with
`if contractor is not None`; but line 90 reads `contractor.rebuild`
unconditionally, so a `None` contractor raises
`AttributeError: 'NoneType' object has no attribute 'rebuild'` before the
constructor returns. -/
def initExpoApply (mpoLen mpsDot mpsCenter : ℕ) (bond_dims : List ℕ) (beta : ℚ)
    (contractor : Option Ctr) (canonical_form : Option (List Char)) :
    Except PyErr ExpoApplySt :=
  let n_sites := mpoLen
  let form :=
    match canonical_form with
    | none => initCanonicalForm n_sites mpsCenter mpsDot
    | some f => f
  match contractor with
  | none => Except.error (PyErr.attributeError ("rebuild"))
  | some ctr =>
    Except.ok { n_sites, dot := mpsDot, center := mpsCenter, bond_dims,
                canonical_form := form, beta, rebuild := ctr.rebuild }

lemma runForm_length (a b : ℕ) (mid : List Char) :
    (runForm a mid b).length = a + mid.length + b := by
  simp [runForm]
  omega

lemma getElem?_runForm (a b j : ℕ) (mid : List Char) :
    (runForm a mid b)[j]? =
      if j < a then some 'L'
      else if j - a < mid.length then mid[j - a]?
      else if j - a - mid.length < b then some 'R'
      else none := by
  simp only [runForm, List.getElem?_append, List.getElem?_replicate, List.length_replicate,
    List.length_append]
  split_ifs <;> first | rfl | omega

lemma pyRange_length (start stop step : ℤ) :
    (pyRange start stop step).length = pyRangeLen start stop step := by
  simp only [pyRange, List.length_map, List.length_range]

lemma pyRange_getElem (start stop step : ℤ) (j : ℕ)
    (hj : j < (pyRange start stop step).length) :
    (pyRange start stop step)[j] = start + step * (j : ℤ) := by
  simp only [pyRange, List.getElem_map, List.getElem_range]

lemma pyRangeLen_up (start stop : ℤ) : pyRangeLen start stop 1 = (stop - start).toNat := by
  simp [pyRangeLen]

lemma pyRangeLen_down (start : ℤ) : pyRangeLen start (-1) (-1) = (start + 1).toNat := by
  have h1 : ¬ (0 : ℤ) < -1 := by norm_num
  have h2 : (-1 : ℤ) < 0 := by norm_num
  simp only [pyRangeLen, h1, if_false, h2, if_true, if_pos]
  norm_num

lemma sweepSites_fwd_length (center n_sites dot : ℕ) :
    (sweepSites true center n_sites dot).length =
      ((n_sites : ℤ) - (dot : ℤ) + 1 - (center : ℤ)).toNat := by
  simp only [sweepSites, List.length_map, sweepSitesZ, if_pos, pyRange_length, pyRangeLen_up]

lemma sweepSites_bwd_length (center n_sites dot : ℕ) :
    (sweepSites false center n_sites dot).length = center + 1 := by
  simp only [sweepSites, List.length_map, sweepSitesZ, Bool.false_eq_true, if_false,
    pyRange_length, pyRangeLen_down]
  omega

/-- Claim C4: the site indices visited by a sweep are exactly
`center, center+1, …, n_sites - dot` (forward, when the start is in
range) and exactly `center, center-1, …, 0` (backward), in that order. -/
theorem C4_sweep_visit_order :
    (∀ center n_sites dot : ℕ, center + dot ≤ n_sites →
      (sweepSites true center n_sites dot).length = n_sites - dot + 1 - center ∧
      ∀ j, (hj : j < (sweepSites true center n_sites dot).length) →
        (sweepSites true center n_sites dot)[j] = center + j) ∧
    (∀ center n_sites dot : ℕ,
      (sweepSites false center n_sites dot).length = center + 1 ∧
      ∀ j, (hj : j < (sweepSites false center n_sites dot).length) →
        (sweepSites false center n_sites dot)[j] = center - j) := by
  constructor
  · intro center n_sites dot h
    have hlen := sweepSites_fwd_length center n_sites dot
    refine ⟨by rw [hlen]; omega, ?_⟩
    intro j hj
    have hj' : j < (sweepSitesZ true center n_sites dot).length := by
      simpa [sweepSites] using hj
    have hjlt : j < ((n_sites : ℤ) - (dot : ℤ) + 1 - (center : ℤ)).toNat := by
      rw [← hlen]; exact hj
    simp only [sweepSites, List.getElem_map, sweepSitesZ, if_pos]
    rw [pyRange_getElem]
    omega
  · intro center n_sites dot
    have hlen := sweepSites_bwd_length center n_sites dot
    refine ⟨hlen, ?_⟩
    intro j hj
    have hj' : j < (sweepSitesZ false center n_sites dot).length := by
      simpa [sweepSites] using hj
    have hjlt : j < center + 1 := by rw [← hlen]; exact hj
    simp only [sweepSites, List.getElem_map, sweepSitesZ, Bool.false_eq_true, if_false]
    rw [pyRange_getElem]
    omega

lemma getElem?_single (x : Char) (k : ℕ) : ([x])[k]? = if k = 0 then some x else none := by
  cases k <;> simp

lemma set_runForm_K (a : ℕ) (x : Char) :
    (runForm a [x] 0).set a 'K' = runForm a ['K'] 0 := by
  apply List.ext_getElem?
  intro j
  simp only [List.getElem?_set, getElem?_runForm, runForm_length, getElem?_single,
    List.length_cons, List.length_nil]
  split_ifs <;> first | rfl | (exfalso; omega)

lemma set_runForm_LC (a b : ℕ) (x : Char) (hb : 1 ≤ b) :
    ((runForm a [x] b).set a 'L').set (a + 1) 'C' = runForm (a + 1) ['C'] (b - 1) := by
  apply List.ext_getElem?
  intro j
  simp only [List.getElem?_set, getElem?_runForm, runForm_length, getElem?_single,
    List.length_set, List.length_cons, List.length_nil]
  split_ifs <;> first | rfl | (exfalso; omega)

lemma set_runForm_S (b : ℕ) (x : Char) :
    (runForm 0 [x] b).set 0 'S' = runForm 0 ['S'] b := by
  apply List.ext_getElem?
  intro j
  simp only [List.getElem?_set, getElem?_runForm, runForm_length, getElem?_single,
    List.length_cons, List.length_nil]
  split_ifs <;> first | rfl | (exfalso; omega)

lemma set_runForm_CR (a b : ℕ) (x : Char) (ha : 1 ≤ a) :
    ((runForm a [x] b).set (a - 1) 'C').set a 'R' = runForm (a - 1) ['C'] (b + 1) := by
  apply List.ext_getElem?
  intro j
  simp only [List.getElem?_set, getElem?_runForm, runForm_length, getElem?_single,
    List.length_set, List.length_cons, List.length_nil]
  split_ifs <;> first | rfl | (exfalso; omega)

lemma set_runForm_twoDot_fwd (a b i n : ℕ) (mid : List Char) (h1 : 1 ≤ mid.length)
    (h2 : mid.length ≤ 2) (h3 : i ≤ a) (h4 : a + mid.length ≤ i + 2) (h5 : i + 2 ≤ n)
    (hn : n = a + mid.length + b) :
    ((runForm a mid b).set i 'L').set (i + 1) 'C' = runForm (i + 1) ['C'] (n - i - 2) := by
  apply List.ext_getElem?
  intro j
  simp only [List.getElem?_set, getElem?_runForm, runForm_length, getElem?_single,
    List.length_set, List.length_cons, List.length_nil]
  split_ifs <;> first | rfl | (exfalso; omega)

lemma set_runForm_twoDot_bwd (a b i n : ℕ) (mid : List Char) (h1 : 1 ≤ mid.length)
    (h2 : mid.length ≤ 2) (h3 : i ≤ a) (h4 : a + mid.length ≤ i + 2) (h5 : i + 2 ≤ n)
    (hn : n = a + mid.length + b) :
    ((runForm a mid b).set i 'C').set (i + 1) 'R' = runForm i ['C'] (n - i - 1) := by
  apply List.ext_getElem?
  intro j
  simp only [List.getElem?_set, getElem?_runForm, runForm_length, getElem?_single,
    List.length_set, List.length_cons, List.length_nil]
  split_ifs <;> first | rfl | (exfalso; omega)

/-- Claim C2: the canonical form is always a single contiguous run of
centre markers (`'C'`/`'K'`/`'S'`) with `'L'` everywhere to its left and
`'R'` everywhere to its right: the constructor builds such a form, a
one-dot update at the run moves the run by exactly one site — or converts
it to the boundary `'K'` (forward, last site) or `'S'` (backward, first
site) marker — and a two-dot update at a block covering the run leaves a
run spanning at most two sites (in fact exactly one). -/
theorem C2_canonical_center_run :
    (∀ n_sites center dot : ℕ, center + dot ≤ n_sites →
      initCanonicalForm n_sites center dot =
        runForm center (List.replicate dot 'C') (n_sites - center - dot)) ∧
    (∀ a b : ℕ, ∀ x : Char, isCenterMark x = true →
      (oneDotFormUpdate (a + 1 + b) a true (runForm a [x] b) =
        if b = 0 then runForm a ['K'] 0 else runForm (a + 1) ['C'] (b - 1)) ∧
      (oneDotFormUpdate (a + 1 + b) a false (runForm a [x] b) =
        if a = 0 then runForm 0 ['S'] b else runForm (a - 1) ['C'] (b + 1))) ∧
    (∀ n i a b : ℕ, ∀ mid : List Char, (∀ ch ∈ mid, isCenterMark ch = true) →
      1 ≤ mid.length → mid.length ≤ 2 → i ≤ a → a + mid.length ≤ i + 2 → i + 2 ≤ n →
      n = a + mid.length + b →
      twoDotFormUpdate i true (runForm a mid b) = runForm (i + 1) ['C'] (n - i - 2) ∧
      twoDotFormUpdate i false (runForm a mid b) = runForm i ['C'] (n - i - 1)) := by
  refine ⟨?_, ?_, ?_⟩
  · intro n_sites center dot h
    have hmin : min center n_sites = center := by omega
    rw [initCanonicalForm, runForm, hmin]
  · intro a b x _hx
    constructor
    · rcases Nat.eq_zero_or_pos b with hb | hb
      · subst hb
        rw [if_pos rfl, oneDotFormUpdate, if_pos rfl, if_neg (by omega)]
        exact set_runForm_K a x
      · rw [if_neg (by omega), oneDotFormUpdate, if_pos rfl, if_pos (by omega)]
        exact set_runForm_LC a b x hb
    · rcases Nat.eq_zero_or_pos a with ha | ha
      · subst ha
        rw [if_pos rfl, oneDotFormUpdate, if_neg (by simp), if_neg (by omega)]
        exact set_runForm_S b x
      · rw [if_neg (by omega), oneDotFormUpdate, if_neg (by simp), if_pos (by omega)]
        exact set_runForm_CR a b x ha
  · intro n i a b mid _hmid h1 h2 h3 h4 h5 hn
    constructor
    · rw [twoDotFormUpdate, if_pos rfl, if_pos rfl]
      exact set_runForm_twoDot_fwd a b i n mid h1 h2 h3 h4 h5 hn
    · rw [twoDotFormUpdate, if_neg (by simp), if_neg (by simp)]
      exact set_runForm_twoDot_bwd a b i n mid h1 h2 h3 h4 h5 hn

/-- Witness for C2 at concrete instances: default form construction on 4
sites; a forward interior one-dot update moving the centre from site 1 to
site 2; a forward two-dot update on block `{1, 2}` holding a two-site
`"CC"` run, leaving a single-site run. -/
theorem C2_canonical_center_run_witness :
    initCanonicalForm 4 1 2 = runForm 1 ['C', 'C'] 1 ∧
    oneDotFormUpdate 4 1 true (runForm 1 ['C'] 2) = runForm 2 ['C'] 1 ∧
    twoDotFormUpdate 1 true (runForm 1 ['C', 'C'] 1) = runForm 2 ['C'] 1 := by
  refine ⟨?_, ?_, ?_⟩
  · have h := C2_canonical_center_run.1 4 1 2 (by decide)
    simpa using h
  · have h := (C2_canonical_center_run.2.1 1 2 'C' (by decide)).1
    simpa using h
  · have h := (C2_canonical_center_run.2.2 4 1 1 1 ['C', 'C'] (by decide) (by decide)
      (by decide) (by decide) (by decide) (by decide) (by decide)).1
    simpa using h

/-- Claim C1: every local update first applies the forward exponential
`expo_apply(·, beta)` at the current block, then truncates, and
immediately afterwards applies the compensating exponential with the
opposite step `-beta` on the newly exposed neighbouring tensor; the
compensation is skipped exactly when the update block touches the physical
last site (forward sweep) or the physical first site (backward sweep). -/
theorem C1_backpropagation_compensation :
    ∀ (o : Oracle) (n_sites : ℕ) (form : List Char) (c d i : ℕ) (forward : Bool)
      (bond_dim : ℕ) (beta : ℚ),
    (i + 1 ≤ n_sites →
      Except.map (fun u => u.events)
          (update_one_dot o true n_sites form c d i forward bond_dim beta) =
        Except.ok ([Event.expo i [i] beta, Event.truncate [i] bond_dim] ++
          (if (forward = true ∧ i = n_sites - 1) ∨ (forward = false ∧ i = 0) then []
           else if forward = true then [Event.expo (i + 1) [i + 1] (-beta)]
           else [Event.expo (i - 1) [i - 1] (-beta)]))) ∧
    (i + 2 ≤ n_sites →
      Except.map (fun u => u.events)
          (update_two_dot o true n_sites form c d i forward bond_dim beta) =
        Except.ok ([Event.expo i [i, i + 1] beta, Event.truncate [i, i + 1] bond_dim] ++
          (if (forward = true ∧ i + 1 = n_sites - 1) ∨ (forward = false ∧ i = 0) then []
           else if forward = true then [Event.expo (i + 1) [i + 1] (-beta)]
           else [Event.expo (i - 1) [i] (-beta)]))) := by
  intro o n_sites form c d i forward bond_dim beta
  constructor
  · intro hn
    cases forward
    · by_cases h0 : i = 0
      · subst h0
        simp [update_one_dot, Except.map]
      · simp [update_one_dot, Except.map, h0, Nat.one_le_iff_ne_zero.mpr h0]
    · by_cases hlast : i = n_sites - 1
      · subst hlast
        have hlt : ¬ (n_sites - 1 + 1 < n_sites) := by omega
        simp [update_one_dot, Except.map, hlt]
      · have hlt : i + 1 < n_sites := by omega
        simp [update_one_dot, Except.map, hlt, hlast]
  · intro hn
    cases forward
    · by_cases h0 : i = 0
      · subst h0
        simp [update_two_dot, Except.map]
      · simp [update_two_dot, Except.map, h0]
    · by_cases hlast : i + 1 = n_sites - 1
      · simp [update_two_dot, Except.map, hlast]
      · simp [update_two_dot, Except.map, hlast]

/-- Witness for C1 at concrete inputs: an interior one-dot forward update
at site 1 of 3 compensates at site 2 with step `-1`; a two-dot forward
update at block `{0, 1}` of 4 sites compensates at site 1; a one-dot
forward update at the last site performs no compensation. -/
theorem C1_backpropagation_compensation_witness :
    Except.map (fun u => u.events)
        (update_one_dot oracle0 true 3 ['L', 'C', 'R'] 0 0 1 true 8 1) =
      Except.ok [Event.expo 1 [1] 1, Event.truncate [1] 8, Event.expo 2 [2] (-1)] ∧
    Except.map (fun u => u.events)
        (update_two_dot oracle0 true 4 ['C', 'C', 'R', 'R'] 0 0 0 true 8 1) =
      Except.ok [Event.expo 0 [0, 1] 1, Event.truncate [0, 1] 8, Event.expo 1 [1] (-1)] ∧
    Except.map (fun u => u.events)
        (update_one_dot oracle0 true 3 ['L', 'L', 'C'] 0 0 2 true 8 1) =
      Except.ok [Event.expo 2 [2] 1, Event.truncate [2] 8] := by
  refine ⟨?_, ?_, ?_⟩
  · have h := (C1_backpropagation_compensation oracle0 3 ['L', 'C', 'R'] 0 0 1 true 8 1).1
      (by decide)
    simpa using h
  · have h := (C1_backpropagation_compensation oracle0 4 ['C', 'C', 'R', 'R'] 0 0 0 true 8 1).2
      (by decide)
    simpa using h
  · have h := (C1_backpropagation_compensation oracle0 3 ['L', 'L', 'C'] 0 0 2 true 8 1).1
      (by decide)
    simpa using h

lemma pyLast_ok {α : Type} {l : List α} {x : α} (h : pyLast l = Except.ok x) :
    ∃ hne : l ≠ [], x = l.getLast hne := by
  have hne : l ≠ [] := by
    intro he
    subst he
    simp [pyLast] at h
  refine ⟨hne, ?_⟩
  rw [pyLast, List.getLast?_eq_getLast l hne] at h
  simpa using h.symm

lemma foldl_max_le (x : ℚ) (xs : List ℚ) : ∀ y ∈ x :: xs, y ≤ xs.foldl max x := by
  induction xs generalizing x with
  | nil =>
    intro y hy
    simp only [List.mem_cons, List.not_mem_nil, or_false] at hy
    simp [hy]
  | cons z t ih =>
    intro y hy
    rw [List.foldl_cons]
    have hfold := ih (max x z)
    have hstep : ∀ w ∈ x :: z :: t, w ≤ max x z ∨ w ∈ t := by
      intro w hw
      simp only [List.mem_cons] at hw
      rcases hw with rfl | rfl | hw
      · exact Or.inl (le_max_left _ _)
      · exact Or.inl (le_max_right _ _)
      · exact Or.inr hw
    rcases hstep y hy with hle | hmem
    · exact le_trans hle (hfold _ (List.mem_cons_self _ _))
    · exact hfold y (List.mem_cons_of_mem _ hmem)

lemma foldl_max_mem (x : ℚ) (xs : List ℚ) : xs.foldl max x ∈ x :: xs := by
  induction xs generalizing x with
  | nil => simp
  | cons z t ih =>
    rw [List.foldl_cons]
    have h := ih (max x z)
    rcases max_choice x z with hc | hc <;> rw [hc] at h ⊢ <;>
      simp only [List.mem_cons] at h ⊢ <;> tauto

lemma pyMax_ok {l : List ℚ} {m : ℚ} (h : pyMax l = Except.ok m) :
    (∀ e ∈ l, e ≤ m) ∧ m ∈ l := by
  cases l with
  | nil => simp [pyMax] at h
  | cons x xs =>
    simp only [pyMax, Except.ok.injEq] at h
    subst h
    exact ⟨foldl_max_le x xs, foldl_max_mem x xs⟩

lemma sweepFold_lengths (o : Oracle) (hasCtr : Bool) (n_sites dot : ℕ) (forward : Bool)
    (bond_dim : ℕ) (beta : ℚ) :
    ∀ (sites : List ℕ) (st st' : SweepSt),
      sweepFold o hasCtr n_sites dot forward bond_dim beta sites st = Except.ok st' →
      st'.energies.length = st.energies.length + sites.length ∧
      st'.normsqs.length = st.normsqs.length + sites.length ∧
      st'.errors.length = st.errors.length + sites.length := by
  intro sites
  induction sites with
  | nil =>
    intro st st' h
    simp only [sweepFold, Except.ok.injEq] at h
    subst h
    simp
  | cons i rest ih =>
    intro st st' h
    rw [sweepFold] at h
    cases hb : blocking o hasCtr n_sites dot st.form st.c st.d i forward bond_dim beta with
    | error e => rw [hb] at h; exact absurd h (by simp)
    | ok u =>
      rw [hb] at h
      have h2 := ih _ _ h
      simp only [List.length_append, List.length_cons, List.length_nil] at h2
      simp only [List.length_cons]
      omega

/-- Claim C3: for every sweep visiting at least one site, the returned
triple is the energy of the last local update, the norm squared of the
last local update, and the maximum of the discarded weights over all
local updates of the sweep (one per visited site). -/
theorem C3_sweep_result_aggregation :
    ∀ (o : Oracle) (n_sites dot : ℕ) (forward : Bool) (bond_dim : ℕ) (beta : ℚ)
      (form : List Char) (center c d : ℕ) (out : SweepOut),
      sweep o true n_sites dot forward bond_dim beta form center c d = Except.ok out →
      (∃ hne : out.st.energies ≠ [], out.energy = out.st.energies.getLast hne) ∧
      (∃ hne : out.st.normsqs ≠ [], out.normsq = out.st.normsqs.getLast hne) ∧
      (∀ e ∈ out.st.errors, e ≤ out.error) ∧ out.error ∈ out.st.errors ∧
      out.st.energies.length = (sweepSites forward center n_sites dot).length ∧
      out.st.normsqs.length = (sweepSites forward center n_sites dot).length ∧
      out.st.errors.length = (sweepSites forward center n_sites dot).length := by
  intro o n_sites dot forward bond_dim beta form center c d out h
  rw [sweep] at h
  split at h
  · exact absurd h (by simp)
  next st hf =>
    split at h
    · exact absurd h (by simp)
    next energy he =>
      split at h
      · exact absurd h (by simp)
      next normsq hq =>
        split at h
        · exact absurd h (by simp)
        next error hm =>
          simp only [Except.ok.injEq] at h
          subst h
          have hlen := sweepFold_lengths o true n_sites dot forward bond_dim beta _ _ _ hf
          simp only [List.length_nil, Nat.zero_add] at hlen
          exact ⟨pyLast_ok he, pyLast_ok hq, (pyMax_ok hm).1, (pyMax_ok hm).2,
            hlen.1, hlen.2.1, hlen.2.2⟩

/-- Witness for C3 at a concrete input: a one-dot forward sweep over two
sites returns results drawn from its two local updates. -/
theorem C3_sweep_result_aggregation_witness :
    ∃ out, sweep oracle0 true 2 1 true 8 1 ['C', 'R'] 0 0 0 = Except.ok out ∧
      out.error ∈ out.st.errors ∧ out.st.energies.length = 2 := by
  obtain ⟨out, hout⟩ : ∃ u, sweep oracle0 true 2 1 true 8 1 ['C', 'R'] 0 0 0 = Except.ok u :=
    ⟨_, rfl⟩
  have h := C3_sweep_result_aggregation oracle0 2 1 true 8 1 ['C', 'R'] 0 0 0 out hout
  refine ⟨out, hout, h.2.2.2.1, ?_⟩
  rw [h.2.2.2.2.1]
  decide

/-- Witness for C4 at a concrete instance: a forward sweep on 5 sites with
two-dot scheme from centre 1 visits `[1, 2, 3]`, a backward sweep from
centre 2 visits `[2, 1, 0]`. -/
theorem C4_sweep_visit_order_witness :
    (sweepSites true 1 5 2).length = 3 ∧ (sweepSites true 1 5 2)[1] = 2 ∧
    (sweepSites false 2 5 2).length = 3 ∧ (sweepSites false 2 5 2)[1] = 1 := by
  refine ⟨(C4_sweep_visit_order.1 1 5 2 (by decide)).1, ?_, (C4_sweep_visit_order.2 2 5 2).1, ?_⟩
  · have h := (C4_sweep_visit_order.1 1 5 2 (by decide)).2 1 (by decide)
    simpa using h
  · have h := (C4_sweep_visit_order.2 2 5 2).2 1 (by decide)
    simpa using h

lemma normSq_map_mul (t : List ℝ) (a : ℝ) :
    normSq (t.map (fun x => x * a)) = a ^ 2 * normSq t := by
  induction t with
  | nil => simp [normSq]
  | cons x xs ih =>
    simp only [normSq, List.map_cons, List.sum_cons] at ih ⊢
    rw [ih]
    ring

lemma switchState_ok_forward {n_sites : ℕ} {tdo : ℤ} {iw : ℕ} {st stMid : SolveSt}
    (h : switchState n_sites tdo iw st = Except.ok stMid) : stMid.forward = st.forward := by
  unfold switchState at h
  split at h
  · split at h
    · exact absurd h (by simp)
    · simp only [Except.ok.injEq] at h
      subst h
      rfl
  · simp only [Except.ok.injEq] at h
    subst h
    rfl

/-- Claim C5: after every completed sweep inside `solve`, the sweep
direction is flipped, and the tensor at the orthogonality centre (first
`'C'`, else `'K'`, else `'S'`) is rescaled by `1 / sqrt(normsq)` of the
sweep's reported norm squared, with the identical rescaled tensor written
into the ket network, the bra network, and the environment's ket and bra
copies, leaving a centre tensor of norm squared one. -/
theorem C5_post_sweep_renormalization :
    (∀ (o : Oracle) (hasCtr : Bool) (n_sites : ℕ) (beta : ℚ) (tdo : ℤ) (bd : List ℕ)
       (iw : ℕ) (st st' : SolveSt),
       solveIter o hasCtr n_sites beta tdo bd iw st = Except.ok st' →
       st'.forward = !st.forward) ∧
    (∀ (forward : Bool) (form : List Char) (normsq : ℝ) (nets : NetState) (cc : ℕ),
       ccOf form = some cc → 0 < normsq → normSq (nets.ket cc) = normsq →
       ∃ nets' : NetState,
         postSweepStep forward form normsq nets = Except.ok (!forward, nets', cc) ∧
         nets'.ket cc = nets'.bra cc ∧ nets'.bra cc = nets'.envKet cc ∧
         nets'.envKet cc = nets'.envBra cc ∧ normSq (nets'.ket cc) = 1) := by
  constructor
  · intro o hasCtr n_sites beta tdo bd iw st st' h
    rw [solveIter] at h
    split at h
    · exact absurd h (by simp)
    next stMid hsw =>
      split at h
      · exact absurd h (by simp)
      next bdim hbd =>
        split at h
        · exact absurd h (by simp)
        next sw hsweep =>
          split at h
          · exact absurd h (by simp)
          next cc hcc =>
            simp only [Except.ok.injEq] at h
            subst h
            simp [switchState_ok_forward hsw]
  · intro forward form normsq nets cc hcc hpos hns
    refine ⟨{ ket := Function.update nets.ket cc
                ((nets.ket cc).map (fun x => x * (1 / Real.sqrt normsq))),
              bra := Function.update nets.bra cc
                ((nets.ket cc).map (fun x => x * (1 / Real.sqrt normsq))),
              envKet := Function.update nets.envKet cc
                ((nets.ket cc).map (fun x => x * (1 / Real.sqrt normsq))),
              envBra := Function.update nets.envBra cc
                ((nets.ket cc).map (fun x => x * (1 / Real.sqrt normsq))) }, ?_, ?_, ?_, ?_, ?_⟩
    · unfold postSweepStep
      rw [hcc]
    · simp [Function.update_same]
    · simp [Function.update_same]
    · simp [Function.update_same]
    · simp only [Function.update_same]
      rw [normSq_map_mul, hns, div_pow, one_pow, Real.sq_sqrt hpos.le, one_div,
        inv_mul_cancel₀ (ne_of_gt hpos)]

/-- Witness for C5 at concrete inputs: a concrete `solve` iteration flips
the direction, and a concrete post-sweep renormalisation with reported
norm squared `1` at centre marker position `1` leaves all four copies
identical with norm squared `1`. -/
theorem C5_post_sweep_renormalization_witness :
    (∃ st', solveIter oracle0 true 2 1 (-1) [5] 0
        { dot := 1, center := 0, forward := true, form := ['C', 'R'], c := 0, d := 0,
          energies := [], normsqs := [], errors := [], recs := [] } = Except.ok st' ∧
      st'.forward = false) ∧
    (∃ nets' : NetState,
      postSweepStep true ['L', 'C', 'R'] 1
          { ket := fun _ => [1], bra := fun _ => [1],
            envKet := fun _ => [1], envBra := fun _ => [1] } =
        Except.ok (false, nets', 1) ∧
      nets'.ket 1 = nets'.bra 1 ∧ nets'.bra 1 = nets'.envKet 1 ∧
      nets'.envKet 1 = nets'.envBra 1 ∧ normSq (nets'.ket 1) = 1) := by
  constructor
  · obtain ⟨st', hst⟩ : ∃ st', solveIter oracle0 true 2 1 (-1) [5] 0
        { dot := 1, center := 0, forward := true, form := ['C', 'R'], c := 0, d := 0,
          energies := [], normsqs := [], errors := [], recs := [] } = Except.ok st' := ⟨_, rfl⟩
    refine ⟨st', hst, ?_⟩
    have h := C5_post_sweep_renormalization.1 oracle0 true 2 1 (-1) [5] 0 _ _ hst
    simpa using h
  · have h := C5_post_sweep_renormalization.2 true ['L', 'C', 'R'] 1
      { ket := fun _ => [1], bra := fun _ => [1], envKet := fun _ => [1], envBra := fun _ => [1] }
      1 (by decide) (by norm_num) (by simp [normSq])
    simpa using h

/-- Claim C8 evaluated on the code: requesting a local update while the
Hamiltonian site tensor has no contractor does fail before any state is
modified, but the failure is a `NameError` — line 135 raises
`TimeEvolutionError`, a name the module never binds (it defines `TEError`)
— rather than the intended missing-contractor error. -/
theorem C8_missing_contractor_eval :
    update_one_dot oracle0 false 4 ['L', 'C', 'R', 'R'] 0 0 1 true 8 1 =
      Except.error (PyErr.nameError ("TimeEvolutionError")) ∧
    update_two_dot oracle0 false 4 ['L', 'C', 'C', 'R'] 0 0 1 true 8 1 =
      Except.error (PyErr.nameError ("TimeEvolutionError")) :=
  ⟨rfl, rfl⟩

/-- Claim C9 evaluated on the code: the post-sweep centre check does raise
when no `'C'`/`'K'`/`'S'` marker exists — but a `NameError` (line 468
raises the unbound name `TimeEvolutionError`) rather than the intended
unknown-canonical-form error — and when a marker exists no error is
raised and the centre is the first `'C'`, else the first `'K'`, else the
first `'S'`. -/
theorem C9_unknown_canonical_form_eval :
    postSweepCc ['L', 'R'] = Except.error (PyErr.nameError ("TimeEvolutionError")) ∧
    postSweepCc ['L', 'C', 'K', 'R'] = Except.ok 1 ∧
    postSweepCc ['L', 'K', 'S', 'R'] = Except.ok 1 ∧
    postSweepCc ['S', 'R', 'R'] = Except.ok 0 := by
  exact ⟨rfl, rfl, rfl, rfl⟩

/-- Claim C10: constructing `ExpoApply` with the `contractor` argument
omitted or `None` always raises `AttributeError` from reading
`contractor.rebuild` before the constructor returns, despite the declared
`None` default and the guarded sweep hooks; with any non-`None`
contractor the constructor succeeds, so every usable instance has a
contractor. -/
theorem C10_init_requires_contractor :
    (∀ (mpoLen mpsDot mpsCenter : ℕ) (bond_dims : List ℕ) (beta : ℚ)
       (canonical_form : Option (List Char)),
       initExpoApply mpoLen mpsDot mpsCenter bond_dims beta none canonical_form =
         Except.error (PyErr.attributeError ("rebuild"))) ∧
    (∀ (mpoLen mpsDot mpsCenter : ℕ) (bond_dims : List ℕ) (beta : ℚ)
       (canonical_form : Option (List Char)) (ctr : Ctr),
       ∃ st, initExpoApply mpoLen mpsDot mpsCenter bond_dims beta (some ctr) canonical_form =
         Except.ok st) := by
  constructor
  · intro mpoLen mpsDot mpsCenter bond_dims beta canonical_form
    rfl
  · intro mpoLen mpsDot mpsCenter bond_dims beta canonical_form ctr
    exact ⟨_, rfl⟩

lemma pyGet_ok {α : Type} {l : List α} {i : ℕ} {x : α} (h : pyGet l i = Except.ok x) :
    l[i]? = some x := by
  unfold pyGet at h
  split at h
  · exact absurd h (by simp)
  next y hy =>
    simp only [Except.ok.injEq] at h
    subst h
    exact hy

lemma switchState_ok_spec {n_sites : ℕ} {tdo : ℤ} {iw : ℕ} {st stMid : SolveSt}
    (h : switchState n_sites tdo iw st = Except.ok stMid) :
    stMid.forward = st.forward ∧ stMid.recs = st.recs ∧
    (tdo = (iw : ℤ) → st.dot = 2 ∧ stMid.dot = 1 ∧
      stMid.center =
        (if st.center ≠ 0 ∧ st.center = n_sites - 2 then n_sites - 1 else st.center)) ∧
    (tdo ≠ (iw : ℤ) → stMid = st) := by
  unfold switchState at h
  split at h
  next heq =>
    split at h
    · exact absurd h (by simp)
    next hdot =>
      simp only [Except.ok.injEq] at h
      subst h
      refine ⟨rfl, rfl, fun _ => ⟨by omega, rfl, rfl⟩, fun hne => absurd heq hne⟩
  next hne =>
    simp only [Except.ok.injEq] at h
    subst h
    exact ⟨rfl, rfl, fun heq => absurd heq hne, fun _ => rfl⟩

lemma solveIter_ok_spec {o : Oracle} {hasCtr : Bool} {n_sites : ℕ} {beta : ℚ} {tdo : ℤ}
    {bd : List ℕ} {iw : ℕ} {st₀ st' : SolveSt}
    (h : solveIter o hasCtr n_sites beta tdo bd iw st₀ = Except.ok st') :
    ∃ (stMid : SolveSt) (bdim : ℕ),
      switchState n_sites tdo iw st₀ = Except.ok stMid ∧
      pyGet bd iw = Except.ok bdim ∧
      st'.dot = stMid.dot ∧
      st'.recs = stMid.recs ++ [SweepRec.mk iw stMid.forward stMid.dot bdim st₀.center
        stMid.center (decide (tdo = (iw : ℤ)))] := by
  rw [solveIter] at h
  split at h
  · exact absurd h (by simp)
  next stMid hsw =>
    split at h
    · exact absurd h (by simp)
    next bdim hbdim =>
      split at h
      · exact absurd h (by simp)
      next sw hsweep =>
        split at h
        · exact absurd h (by simp)
        next cc hcc =>
          simp only [Except.ok.injEq] at h
          subst h
          exact ⟨stMid, bdim, hsw, hbdim, rfl, rfl⟩

lemma solveLoop_recs_forall₂ (o : Oracle) (hasCtr : Bool) (n_sites : ℕ) (beta : ℚ)
    (tdo : ℤ) (bd : List ℕ) :
    ∀ (l : List ℕ) (st st' : SolveSt),
      solveLoop o hasCtr n_sites beta tdo bd l st = Except.ok st' →
      ∃ new : List SweepRec, st'.recs = st.recs ++ new ∧
        List.Forall₂ (fun (r : SweepRec) (iw : ℕ) =>
          r.iw = iw ∧ pyGet bd iw = Except.ok r.bond_dim) new l := by
  intro l
  induction l with
  | nil =>
    intro st st' h
    simp only [solveLoop, Except.ok.injEq] at h
    subst h
    exact ⟨[], by simp, List.Forall₂.nil⟩
  | cons iw rest ih =>
    intro st st' h
    rw [solveLoop] at h
    split at h
    · exact absurd h (by simp)
    next st₁ hiter =>
      obtain ⟨new', hrecs, hf⟩ := ih st₁ st' h
      obtain ⟨stMid, bdim, hsw, hbdim, hdot, hrecs₁⟩ := solveIter_ok_spec hiter
      obtain ⟨hfwd, hrecsMid, _, _⟩ := switchState_ok_spec hsw
      refine ⟨SweepRec.mk iw stMid.forward stMid.dot bdim st.center stMid.center
        (decide (tdo = (iw : ℤ))) :: new', ?_, ?_⟩
      · rw [hrecs, hrecs₁, hrecsMid, List.append_assoc, List.singleton_append]
      · exact List.Forall₂.cons ⟨rfl, hbdim⟩ hf

lemma extendSchedule_getElem {bond_dims : List ℕ} {n_sweeps : ℕ} {bd : List ℕ}
    (hbd : bond_dims ≠ []) (h : extendSchedule bond_dims n_sweeps = Except.ok bd)
    (j : ℕ) (hj : j < n_sweeps) :
    bd[j]? = some (if hq : j < bond_dims.length then bond_dims[j]
                   else bond_dims.getLast hbd) := by
  unfold extendSchedule at h
  split at h
  next hlt =>
    rw [List.getLast?_eq_getLast bond_dims hbd] at h
    simp only [Except.ok.injEq] at h
    subst h
    by_cases hq : j < bond_dims.length
    · rw [dif_pos hq, List.getElem?_append, if_pos hq, List.getElem?_eq_getElem hq]
    · rw [dif_neg hq, List.getElem?_append, if_neg hq, List.getElem?_replicate,
        if_pos (by omega)]
  next hge =>
    simp only [Except.ok.injEq] at h
    subst h
    have hq : j < bond_dims.length := by omega
    rw [dif_pos hq, List.getElem?_eq_getElem hq]

lemma solve_ok_spec {o : Oracle} {hasCtr : Bool} {n_sites dot center : ℕ}
    {bond_dims : List ℕ} {beta : ℚ} {form : List Char} {n_sweeps : ℕ} {forward : Bool}
    {tdo : ℤ} {out : SolveOut}
    (h : solve o hasCtr n_sites dot center bond_dims beta form n_sweeps forward tdo =
      Except.ok out) :
    ∃ bd, extendSchedule bond_dims n_sweeps = Except.ok bd ∧
      solveLoop o hasCtr n_sites beta tdo bd (List.range n_sweeps)
        { dot, center, forward, form, c := 0, d := 0,
          energies := [], normsqs := [], errors := [], recs := [] } = Except.ok out.st := by
  rw [solve] at h
  split at h
  · exact absurd h (by simp)
  next bd hext =>
    split at h
    · exact absurd h (by simp)
    next st hloop =>
      split at h
      · exact absurd h (by simp)
      next energy hen =>
        simp only [Except.ok.injEq] at h
        subst h
        exact ⟨bd, hext, hloop⟩

lemma solveLoop_append (o : Oracle) (hasCtr : Bool) (n_sites : ℕ) (beta : ℚ)
    (tdo : ℤ) (bd : List ℕ) :
    ∀ (l₁ l₂ : List ℕ) (st : SolveSt),
      solveLoop o hasCtr n_sites beta tdo bd (l₁ ++ l₂) st =
        match solveLoop o hasCtr n_sites beta tdo bd l₁ st with
        | Except.error e => Except.error e
        | Except.ok st₁ => solveLoop o hasCtr n_sites beta tdo bd l₂ st₁ := by
  intro l₁
  induction l₁ with
  | nil => intro l₂ st; rfl
  | cons iw rest ih =>
    intro l₂ st
    show (match solveIter o hasCtr n_sites beta tdo bd iw st with
          | Except.error e => Except.error e
          | Except.ok st₁ => solveLoop o hasCtr n_sites beta tdo bd (rest ++ l₂) st₁) = _
    cases hiter : solveIter o hasCtr n_sites beta tdo bd iw st with
    | error e => simp only [solveLoop, hiter]
    | ok st₁ =>
      show solveLoop o hasCtr n_sites beta tdo bd (rest ++ l₂) st₁ = _
      rw [ih l₂ st₁]
      simp only [solveLoop, hiter]

lemma solveLoop_no_switch (o : Oracle) (hasCtr : Bool) (n_sites : ℕ) (beta : ℚ)
    (tdo : ℤ) (bd : List ℕ) :
    ∀ (l : List ℕ) (st st' : SolveSt),
      (∀ iw ∈ l, tdo ≠ (iw : ℤ)) →
      solveLoop o hasCtr n_sites beta tdo bd l st = Except.ok st' →
      st'.dot = st.dot ∧
      ∀ r ∈ st'.recs, r ∈ st.recs ∨
        (r.iw ∈ l ∧ r.dot = st.dot ∧ r.switched = false ∧
         r.centerStart = r.centerBefore) := by
  intro l
  induction l with
  | nil =>
    intro st st' hl h
    simp only [solveLoop, Except.ok.injEq] at h
    subst h
    exact ⟨rfl, fun r hr => Or.inl hr⟩
  | cons iw rest ih =>
    intro st st' hl h
    rw [solveLoop] at h
    split at h
    · exact absurd h (by simp)
    next st₁ hiter =>
      obtain ⟨stMid, bdim, hsw, hbdim, hdot₁, hrecs₁⟩ := solveIter_ok_spec hiter
      have hne : tdo ≠ (iw : ℤ) := hl iw (List.mem_cons_self _ _)
      obtain ⟨hfwd, hrecsMid, _hsw2, hid⟩ := switchState_ok_spec hsw
      have hMid : stMid = st := hid hne
      subst hMid
      obtain ⟨hdot', hr⟩ := ih st₁ st' (fun w hw => hl w (List.mem_cons_of_mem _ hw)) h
      constructor
      · rw [hdot', hdot₁]
      · intro r hrmem
        rcases hr r hrmem with hin | hprop
        · rw [hrecs₁] at hin
          rcases List.mem_append.mp hin with hin0 | hin1
          · exact Or.inl hin0
          · have hreq := List.mem_singleton.mp hin1
            subst hreq
            refine Or.inr ⟨List.mem_cons_self _ _, rfl, ?_, rfl⟩
            simp [hne]
        · refine Or.inr ⟨List.mem_cons_of_mem _ hprop.1, ?_, hprop.2.2.1, hprop.2.2.2⟩
          rw [hprop.2.1, hdot₁]

/-- Claim C6: `solve(n_sweeps, ...)` runs exactly `n_sweeps` sweeps and
stops, with no convergence-based early exit; sweep `iw` uses bond
dimension `bond_dims[iw]`, with a schedule shorter than `n_sweeps`
extended by repeating its last value. -/
theorem C6_fixed_sweep_count_and_schedule :
    ∀ (o : Oracle) (n_sites dot center : ℕ) (bond_dims : List ℕ) (beta : ℚ)
      (form : List Char) (n_sweeps : ℕ) (forward : Bool) (tdo : ℤ) (out : SolveOut)
      (hbd : bond_dims ≠ []),
      solve o true n_sites dot center bond_dims beta form n_sweeps forward tdo =
        Except.ok out →
      out.st.recs.length = n_sweeps ∧
      ∀ j, (hj : j < out.st.recs.length) →
        (out.st.recs[j]).iw = j ∧
        (out.st.recs[j]).bond_dim =
          (if hq : j < bond_dims.length then bond_dims[j] else bond_dims.getLast hbd) := by
  intro o n_sites dot center bond_dims beta form n_sweeps forward tdo out hbd h
  obtain ⟨bd, hext, hloop⟩ := solve_ok_spec h
  obtain ⟨new, hrecs, hf⟩ := solveLoop_recs_forall₂ o true n_sites beta tdo bd
    (List.range n_sweeps) _ _ hloop
  have hrecs' : out.st.recs = new := by simpa using hrecs
  obtain ⟨hlen2, hget⟩ := List.forall₂_iff_get.mp hf
  have hlen : out.st.recs.length = n_sweeps := by
    rw [hrecs', hlen2, List.length_range]
  refine ⟨hlen, ?_⟩
  intro j hj
  simp only [hrecs'] at hj ⊢
  have hj2 : j < (List.range n_sweeps).length := by rw [← hlen2]; exact hj
  have hR := hget j hj hj2
  simp only [List.get_eq_getElem, List.getElem_range] at hR
  have hjn : j < n_sweeps := by simpa using hj2
  have hR2 := hR.2
  have hbdim := pyGet_ok hR2
  have hext2 := extendSchedule_getElem hbd hext j hjn
  have hbd_eq := Option.some.inj (hbdim.symm.trans hext2)
  exact ⟨hR.1, hbd_eq⟩

/-- Witness for C6 at a concrete input: three sweeps are executed for
`n_sweeps = 3`, and the first sweep uses the first schedule entry. -/
theorem C6_fixed_sweep_count_and_schedule_witness :
    ∃ out, solve oracle0 true 2 1 0 [5] 1 ['C', 'R'] 3 true (-1) = Except.ok out ∧
      out.st.recs.length = 3 ∧
      out.st.recs[0]?.map (fun r => r.bond_dim) = some 5 := by
  obtain ⟨out, hout⟩ : ∃ u, solve oracle0 true 2 1 0 [5] 1 ['C', 'R'] 3 true (-1) =
      Except.ok u := ⟨_, rfl⟩
  have h6 := C6_fixed_sweep_count_and_schedule oracle0 2 1 0 [5] 1 ['C', 'R'] 3 true (-1)
    out (by decide) hout
  refine ⟨out, hout, h6.1, ?_⟩
  have hj : 0 < out.st.recs.length := by rw [h6.1]; norm_num
  have hp := (h6.2 0 hj).2
  rw [List.getElem?_eq_getElem hj]
  simp only [Option.map_some']
  rw [hp]
  simp

/-- Claim C7: with `two_dot_to_one_dot = iw` in `[0, n_sweeps)` the scheme
switches from two-dot to one-dot exactly at the start of sweep `iw`
(requiring the dot scheme be 2 there, hence from the start), with the
centre adjusted by the `n_sites - 2 → n_sites - 1` rule before that sweep
runs; with `two_dot_to_one_dot = -1` no switch ever occurs and the centre
is never adjusted. -/
theorem C7_two_dot_to_one_dot_switch :
    ∀ (o : Oracle) (n_sites dot center : ℕ) (bond_dims : List ℕ) (beta : ℚ)
      (form : List Char) (n_sweeps : ℕ) (forward : Bool) (tdo : ℤ) (out : SolveOut),
      solve o true n_sites dot center bond_dims beta form n_sweeps forward tdo =
        Except.ok out →
      out.st.recs.length = n_sweeps ∧
      (tdo = -1 → ∀ r ∈ out.st.recs, r.dot = dot ∧ r.switched = false ∧
         r.centerStart = r.centerBefore) ∧
      (∀ t : ℕ, tdo = (t : ℤ) → t < n_sweeps →
        dot = 2 ∧
        ∀ r ∈ out.st.recs,
          (r.iw < t → r.dot = 2 ∧ r.switched = false) ∧
          (t ≤ r.iw → r.dot = 1) ∧
          (r.switched = true ↔ r.iw = t) ∧
          (r.switched = true →
            r.centerStart = (if r.centerBefore ≠ 0 ∧ r.centerBefore = n_sites - 2
              then n_sites - 1 else r.centerBefore)) ∧
          (r.switched = false → r.centerStart = r.centerBefore)) := by
  intro o n_sites dot center bond_dims beta form n_sweeps forward tdo out h
  obtain ⟨bd, hext, hloop⟩ := solve_ok_spec h
  have hlenrecs : out.st.recs.length = n_sweeps := by
    obtain ⟨new, hrecs, hf⟩ := solveLoop_recs_forall₂ o true n_sites beta tdo bd
      (List.range n_sweeps) _ _ hloop
    have h1 : out.st.recs = new := by simpa using hrecs
    rw [h1, List.Forall₂.length_eq hf, List.length_range]
  refine ⟨hlenrecs, ?_, ?_⟩
  · intro htdo r hr
    subst htdo
    have hns := solveLoop_no_switch o true n_sites beta (-1) bd (List.range n_sweeps) _ _
      (fun iw _ => by omega) hloop
    rcases hns.2 r hr with hin | hp
    · simp at hin
    · exact ⟨hp.2.1, hp.2.2.1, hp.2.2.2⟩
  · intro t htdo htn
    subst htdo
    have hdecomp : List.range n_sweeps =
        List.range' 0 t ++ (t :: List.range' (t + 1) (n_sweeps - t - 1)) := by
      rw [List.range_eq_range']
      obtain ⟨m, hm⟩ : ∃ m, n_sweeps - t = m + 1 := ⟨n_sweeps - t - 1, by omega⟩
      have hm2 : n_sweeps - t - 1 = m := by omega
      rw [hm2]
      have h2 := List.range'_append 0 t (m + 1) 1
      have h3 : m + 1 + t = n_sweeps := by omega
      rw [h3] at h2
      have h4 : 0 + 1 * t = t := by omega
      rw [h4] at h2
      rw [← h2, List.range'_succ]
    rw [hdecomp, solveLoop_append o true n_sites beta ((t : ℕ) : ℤ) bd] at hloop
    split at hloop
    · exact absurd hloop (by simp)
    next st₁ hph1eq =>
      rw [solveLoop] at hloop
      split at hloop
      · exact absurd hloop (by simp)
      next st₂ hiter =>
        have hph1 := solveLoop_no_switch o true n_sites beta ((t : ℕ) : ℤ) bd
          (List.range' 0 t) _ _
          (fun iw hiw => by
            have := List.mem_range'_1.mp hiw
            omega)
          hph1eq
        obtain ⟨stMid, bdim, hsw, hbdim, hdot₂, hrecs₂⟩ := solveIter_ok_spec hiter
        obtain ⟨hfwd, hrecsMid, hswc, _⟩ := switchState_ok_spec hsw
        have hswc' := hswc rfl
        have hdot0 : dot = 2 := by
          have h1 : st₁.dot = 2 := hswc'.1
          have h0 : st₁.dot = dot := hph1.1
          omega
        have hph3 := solveLoop_no_switch o true n_sites beta ((t : ℕ) : ℤ) bd
          (List.range' (t + 1) (n_sweeps - t - 1)) _ _
          (fun iw hiw => by
            have := List.mem_range'_1.mp hiw
            omega)
          hloop
        refine ⟨hdot0, ?_⟩
        intro r hr
        rcases hph3.2 r hr with hin2 | hp3
        · rw [hrecs₂, hrecsMid] at hin2
          rcases List.mem_append.mp hin2 with hin1 | hinT
          · rcases hph1.2 r hin1 with hin0 | hp1
            · simp at hin0
            · have hiw : r.iw < t := by
                have := List.mem_range'_1.mp hp1.1
                omega
              have hdotr : r.dot = 2 := by
                have h4 : r.dot = dot := hp1.2.1
                omega
              refine ⟨fun _ => ⟨hdotr, hp1.2.2.1⟩, fun hle => absurd hle (by omega),
                ?_, ?_, fun _ => hp1.2.2.2⟩
              · constructor
                · intro hswt
                  rw [hp1.2.2.1] at hswt
                  exact absurd hswt (by simp)
                · intro hiwt
                  omega
              · intro hswt
                rw [hp1.2.2.1] at hswt
                exact absurd hswt (by simp)
          · have hreq := List.mem_singleton.mp hinT
            subst hreq
            refine ⟨fun hlt => by simp at hlt, fun _ => hswc'.2.1, by simp, ?_, ?_⟩
            · intro _
              exact hswc'.2.2
            · intro hswf
              simp at hswf
        · have hiw : t + 1 ≤ r.iw := by
            have := List.mem_range'_1.mp hp3.1
            omega
          have hdotr : r.dot = 1 := by
            have h1 : r.dot = st₂.dot := hp3.2.1
            have h2 : st₂.dot = stMid.dot := hdot₂
            have h3 : stMid.dot = 1 := hswc'.2.1
            omega
          refine ⟨fun hlt => absurd hlt (by omega), fun _ => hdotr, ?_, ?_,
            fun _ => hp3.2.2.2⟩
          · constructor
            · intro hswt
              rw [hp3.2.2.1] at hswt
              exact absurd hswt (by simp)
            · intro hiwt
              omega
          · intro hswt
            rw [hp3.2.2.1] at hswt
            exact absurd hswt (by simp)

/-- Witness for C7 at concrete inputs: a two-sweep run with
`two_dot_to_one_dot = -1` never switches, and a three-sweep two-dot run
with `two_dot_to_one_dot = 1` has its second sweep marked as the switching
sweep. -/
theorem C7_two_dot_to_one_dot_switch_witness :
    (∃ out, solve oracle0 true 2 1 0 [5] 1 ['C', 'R'] 2 true (-1) = Except.ok out ∧
      ∃ r ∈ out.st.recs, r.dot = 1 ∧ r.switched = false) ∧
    (∃ out, solve oracle0 true 4 2 0 [5] 1 ['C', 'C', 'R', 'R'] 3 true 1 = Except.ok out ∧
      ∃ r ∈ out.st.recs, r.switched = true ↔ r.iw = 1) := by
  constructor
  · obtain ⟨out, hout⟩ : ∃ u, solve oracle0 true 2 1 0 [5] 1 ['C', 'R'] 2 true (-1) =
        Except.ok u := ⟨_, rfl⟩
    have h7 := C7_two_dot_to_one_dot_switch oracle0 2 1 0 [5] 1 ['C', 'R'] 2 true (-1)
      out hout
    have hj : 0 < out.st.recs.length := by rw [h7.1]; decide
    have hp := h7.2.1 rfl _ (List.getElem_mem hj)
    exact ⟨out, hout, out.st.recs[0], List.getElem_mem hj, hp.1, hp.2.1⟩
  · obtain ⟨out, hout⟩ : ∃ u, solve oracle0 true 4 2 0 [5] 1 ['C', 'C', 'R', 'R'] 3 true 1 =
        Except.ok u := ⟨_, rfl⟩
    have h7 := C7_two_dot_to_one_dot_switch oracle0 4 2 0 [5] 1 ['C', 'C', 'R', 'R'] 3
      true 1 out hout
    have hj : 1 < out.st.recs.length := by rw [h7.1]; decide
    have hp := (h7.2.2 1 (by decide) (by decide)).2 _ (List.getElem_mem hj)
    exact ⟨out, hout, out.st.recs[1], List.getElem_mem hj, hp.2.2.1⟩

end PyBlock
